import Mathlib

/-!
Shallow embedding of the downzer core (combination generator, target resolver,
download execution engine, task store and IPC control protocol), together with
proofs about the embedded operations.

Sources embedded here:
- src/core/task.rs: TaskStatus, TaskInfo.
- src/ipc.rs: IpcCommand, IpcResponse, handle_command.
- src/core/downzer.rs: process_wordlists, generate_combinations,
  process_url_template, download_file, execute_download_task.

Modelling conventions:
- Rust u32/u64/usize are modelled as Nat (no arithmetic in the embedded code
  can overflow a 64-bit counter on realistic inputs, and none of the claims
  concerns wrap-around).
- The shared HashMap of tasks is modelled as an association list; get_mut
  updates, reads and inserts keep the source semantics (first matching key).
- Network I/O is modelled by passing each unit its observed HTTP response
  (or none for a transport/timeout failure) as data.
-/

namespace Downzer

/-- TaskStatus from src/core/task.rs. -/
inductive TaskStatus where
  | Queued
  | Running
  | Paused
  | Completed
  | Failed
  | Stopped
deriving DecidableEq

/-- TaskStatus::to_string from src/core/task.rs. -/
def TaskStatus.to_string : TaskStatus → String
  | .Queued => "Queued"
  | .Running => "Running"
  | .Paused => "Paused"
  | .Completed => "Completed"
  | .Failed => "Failed"
  | .Stopped => "Stopped"

/-- TaskInfo from src/core/task.rs (start_time, an opaque clock instant never
read by the embedded operations, is omitted). -/
structure TaskInfo where
  id : Nat
  url_template : String
  total : Nat
  completed : Nat
  status : TaskStatus
deriving DecidableEq

/-- The shared task map (HashMap u32 TaskInfo) as an association list. -/
abbrev TaskMap := List (Nat × TaskInfo)

/-- HashMap::get on the task map: first entry with the given key. -/
def findTask : TaskMap → Nat → Option TaskInfo
  | [], _ => none
  | (k, t) :: rest, id => if k = id then some t else findTask rest id

/-- The body of `if let Some(task) = task_map.get_mut(&id) \x7b task.status = st \x7d`:
update the status of the entry with the given key, leave the map unchanged
when the key is absent. -/
def setTaskStatus (m : TaskMap) (id : Nat) (st : TaskStatus) : TaskMap :=
  m.map (fun e => if e.1 = id then (e.1, { e.2 with status := st }) else e)

/-- The body of `if let Some(t) = tasks.get_mut(&task_id) \x7b t.completed += 1 \x7d`
in execute_download_task. -/
def incrCompleted (m : TaskMap) (id : Nat) : TaskMap :=
  m.map (fun e => if e.1 = id then (e.1, { e.2 with completed := e.2.completed + 1 }) else e)

/-- IpcCommand from src/ipc.rs. -/
inductive IpcCommand where
  | Stop (ids : List Nat)
  | Pause (ids : List Nat)
  | Resume (ids : List Nat)
  | List
  | Status (id : Nat)
deriving DecidableEq

/-- IpcResponse from src/ipc.rs. -/
inductive IpcResponse where
  | Ok
  | TaskList (entries : List (Nat × String × String))
  | Error (msg : String)
deriving DecidableEq

/-- The `for id in ids` loops of the Stop/Pause/Resume arms of handle_command. -/
def setStatusAll (m : TaskMap) (ids : List Nat) (st : TaskStatus) : TaskMap :=
  ids.foldl (fun acc id => setTaskStatus acc id st) m

/-- handle_command from src/ipc.rs: applies one IPC command to the task map and
produces the response; returns the mutated map alongside. -/
def handle_command (cmd : IpcCommand) (m : TaskMap) : TaskMap × IpcResponse :=
  match cmd with
  | .Stop ids => (setStatusAll m ids .Stopped, .Ok)
  | .Pause ids => (setStatusAll m ids .Paused, .Ok)
  | .Resume ids => (setStatusAll m ids .Running, .Ok)
  | .List =>
      (m, .TaskList (m.map (fun e => (e.1, e.2.status.to_string, e.2.url_template))))
  | .Status id =>
      match findTask m id with
      | some t => (m, .TaskList [(id, t.status.to_string, t.url_template)])
      | none => (m, .Error ("Task " ++ toString id ++ " not found"))

theorem setTaskStatus_cons (k : Nat) (t : TaskInfo) (rest : TaskMap) (j : Nat)
    (st : TaskStatus) :
    setTaskStatus ((k, t) :: rest) j st =
      (if k = j then (k, { t with status := st }) else (k, t)) :: setTaskStatus rest j st := rfl

theorem findTask_setTaskStatus (m : TaskMap) (j id : Nat) (st : TaskStatus) :
    findTask (setTaskStatus m j st) id =
      if id = j then (findTask m id).map (fun t => { t with status := st })
      else findTask m id := by
  induction m with
  | nil => simp [findTask, setTaskStatus]
  | cons e rest ih =>
    obtain ⟨k, t⟩ := e
    rw [setTaskStatus_cons]
    by_cases hkj : k = j
    · rw [if_pos hkj]
      by_cases hki : k = id
      · subst hki; subst hkj
        simp [findTask]
      · simp [findTask, hki, ih]
    · rw [if_neg hkj]
      by_cases hki : k = id
      · subst hki
        simp [findTask, hkj]
      · simp [findTask, hki, ih]

theorem findTask_setStatusAll (m : TaskMap) (ids : List Nat) (id : Nat) (st : TaskStatus) :
    findTask (setStatusAll m ids st) id =
      if id ∈ ids then (findTask m id).map (fun t => { t with status := st })
      else findTask m id := by
  induction ids generalizing m with
  | nil => simp [setStatusAll]
  | cons i rest ih =>
    have step : setStatusAll m (i :: rest) st = setStatusAll (setTaskStatus m i st) rest st := by
      simp [setStatusAll]
    rw [step, ih, findTask_setTaskStatus]
    by_cases hid : id = i <;> by_cases hmem : id ∈ rest <;>
      cases h : findTask m id <;> simp [hid, hmem, h]

/-- Claim C8: Stop(ids)/Pause(ids)/Resume(ids) set status Stopped/Paused/Running
on every id present in the task store, unconditionally (regardless of the
current status, so resuming a Completed task flips it to Running), silently
ignore absent ids, and respond Ok; List returns (id, status text, template)
for every known task; Status(id) returns that tuple when id is present and an
explicit not-found error otherwise. -/
theorem C8_control_commands (m : TaskMap) (ids : List Nat) (id : Nat) (t : TaskInfo) :
    ((handle_command (.Stop ids) m).2 = .Ok ∧
      findTask (handle_command (.Stop ids) m).1 id =
        (if id ∈ ids then (findTask m id).map (fun u => { u with status := .Stopped })
         else findTask m id)) ∧
    ((handle_command (.Pause ids) m).2 = .Ok ∧
      findTask (handle_command (.Pause ids) m).1 id =
        (if id ∈ ids then (findTask m id).map (fun u => { u with status := .Paused })
         else findTask m id)) ∧
    ((handle_command (.Resume ids) m).2 = .Ok ∧
      findTask (handle_command (.Resume ids) m).1 id =
        (if id ∈ ids then (findTask m id).map (fun u => { u with status := .Running })
         else findTask m id)) ∧
    (handle_command .List m =
      (m, .TaskList (m.map (fun e => (e.1, e.2.status.to_string, e.2.url_template))))) ∧
    (findTask m id = some t →
      handle_command (.Status id) m = (m, .TaskList [(id, t.status.to_string, t.url_template)])) ∧
    (findTask m id = none →
      handle_command (.Status id) m = (m, .Error ("Task " ++ toString id ++ " not found"))) := by
  refine ⟨⟨rfl, ?_⟩, ⟨rfl, ?_⟩, ⟨rfl, ?_⟩, rfl, ?_, ?_⟩
  · exact findTask_setStatusAll m ids id .Stopped
  · exact findTask_setStatusAll m ids id .Paused
  · exact findTask_setStatusAll m ids id .Running
  · intro h; simp [handle_command, h]
  · intro h; simp [handle_command, h]

/-- A concrete finished task used to instantiate witnesses. -/
def sampleTask : TaskInfo := ⟨1, "http://x/FUZZR", 5, 5, .Completed⟩

/-- A concrete one-task store used to instantiate witnesses. -/
def sampleStore : TaskMap := [(1, sampleTask)]

/-- Witness for C8 at a concrete store: a single task id 1 in status Completed,
stopped, paused and resumed via singleton id lists (Resume flips Completed to
Running), listed, and queried by id. -/
theorem C8_control_commands_witness :
    ((handle_command (.Stop [1]) sampleStore).2 = .Ok ∧
      findTask (handle_command (.Stop [1]) sampleStore).1 1 =
        (if 1 ∈ [1] then
          (findTask sampleStore 1).map (fun u => { u with status := .Stopped })
         else findTask sampleStore 1)) ∧
    ((handle_command (.Pause [1]) sampleStore).2 = .Ok ∧
      findTask (handle_command (.Pause [1]) sampleStore).1 1 =
        (if 1 ∈ [1] then
          (findTask sampleStore 1).map (fun u => { u with status := .Paused })
         else findTask sampleStore 1)) ∧
    ((handle_command (.Resume [1]) sampleStore).2 = .Ok ∧
      findTask (handle_command (.Resume [1]) sampleStore).1 1 =
        (if 1 ∈ [1] then
          (findTask sampleStore 1).map (fun u => { u with status := .Running })
         else findTask sampleStore 1)) ∧
    (handle_command .List sampleStore =
      (sampleStore,
        .TaskList (sampleStore.map (fun e => (e.1, e.2.status.to_string, e.2.url_template))))) ∧
    (findTask sampleStore 1 = some sampleTask →
      handle_command (.Status 1) sampleStore =
        (sampleStore, .TaskList [(1, sampleTask.status.to_string, sampleTask.url_template)])) ∧
    (findTask sampleStore 1 = none →
      handle_command (.Status 1) sampleStore =
        (sampleStore, .Error ("Task " ++ toString 1 ++ " not found"))) :=
  C8_control_commands sampleStore [1] 1 sampleTask

/-- Claim C10: for every task id present in the store, applying Pause then
Resume leaves the task Running with every other field unchanged, and leaves
every other task entry unchanged. -/
theorem C10_pause_then_resume (m : TaskMap) (id : Nat) (t : TaskInfo)
    (h : findTask m id = some t) :
    findTask (handle_command (.Resume [id]) (handle_command (.Pause [id]) m).1).1 id =
      some { t with status := .Running } ∧
    ∀ j, j ≠ id →
      findTask (handle_command (.Resume [id]) (handle_command (.Pause [id]) m).1).1 j =
        findTask m j := by
  constructor
  · simp [handle_command, findTask_setStatusAll, h]
  · intro j hj
    simp [handle_command, findTask_setStatusAll, hj]

/-- Witness for C10: task id 7 in status Running with completed 3 of total 9;
after Pause then Resume it is Running with completed and total untouched. -/
theorem C10_pause_then_resume_witness :
    findTask (handle_command (.Resume [7])
        (handle_command (.Pause [7]) [(7, ⟨7, "tmpl", 9, 3, .Running⟩)]).1).1 7 =
      some { (⟨7, "tmpl", 9, 3, .Running⟩ : TaskInfo) with status := .Running } ∧
    ∀ j, j ≠ 7 →
      findTask (handle_command (.Resume [7])
          (handle_command (.Pause [7]) [(7, ⟨7, "tmpl", 9, 3, .Running⟩)]).1).1 j =
        findTask [(7, ⟨7, "tmpl", 9, 3, .Running⟩)] j :=
  C10_pause_then_resume [(7, ⟨7, "tmpl", 9, 3, .Running⟩)] 7 ⟨7, "tmpl", 9, 3, .Running⟩ (by decide)

/-- The nested while loops of process_wordlists from src/core/downzer.rs after
the first outer check: `combined` is the list being accumulated for the
current output slot; a standalone "+" list absorbs the following list into
`combined` (erroring when none follows); any other list closes the current
slot and starts the next one, whose head cannot be a standalone "+" (the
inner while loop stopped exactly because that list is not ["+"], which is
also why the outer adjacency check can only fire on the very first list).
The source error messages contain quoted plus signs; the quotes are dropped
here. -/
def mergeChain (combined : List String) : List (List String) → Except String (List (List String))
  | [] => .ok [combined]
  | l :: rest =>
    if l = ["+"] then
      match rest with
      | [] => .error "+ at end without following list"
      | nxt :: rest2 => mergeChain (combined ++ nxt) rest2
    else
      (mergeChain l rest).map (fun out => combined :: out)

/-- process_wordlists from src/core/downzer.rs, taking the already-read raw
lists (read_list_from_token does file I/O and is applied before the merge
loop; a literal "+" token reads as the list ["+"]). -/
def process_wordlists : List (List String) → Except String (List (List String))
  | [] => .ok []
  | l :: rest =>
    if l = ["+"] then .error "+ without adjacent lists"
    else mergeChain l rest

/-- The recursive cartesian_product helper inside generate_combinations from
src/core/downzer.rs; the first argument is the slice of lists from the
current index on, the second the accumulated tuple. -/
def cartesian_product : List (List String) → List String → List (List String)
  | [], current => [current]
  | list :: rest, current => list.flatMap (fun item => cartesian_product rest (current ++ [item]))

/-- generate_combinations from src/core/downzer.rs. The final uniform shuffle
applied when the random flag is set is an external permutation of the
returned set and is not modelled (no claim concerns it), so the flag is
dropped. Rust indexing (lists[0] on an empty list set, list[i % len] on an
empty list) panics out of domain; those reads are modelled with defaults
(headD/getD) and the theorems stay inside the panic-free domain. -/
def generate_combinations (lists : List (List String)) (parallel : Bool) : List (List String) :=
  if parallel then
    (List.range (lists.headD []).length).map
      (fun i => lists.map (fun list => list.getD (i % list.length) ""))
  else if lists.length = 1 then
    (lists.headD []).map (fun s => [s])
  else
    cartesian_product lists []

theorem Except.isOk_map (f : List (List String) → List (List String))
    (r : Except String (List (List String))) : (r.map f).isOk = r.isOk := by
  cases r <;> rfl

/-- Inside the merge scan, a trailing standalone "+" in the remaining lists
forces an error, provided no standalone "+" immediately follows another. -/
theorem mergeChain_isOk_false : ∀ (ls : List (List String)) (combined : List String),
    ls.getLast? = some ["+"] →
    ls.Chain' (fun a b => ¬ (a = ["+"] ∧ b = ["+"])) →
    (mergeChain combined ls).isOk = false
  | [], _, h, _ => by simp at h
  | [x], c, h, _ => by
      have hx : x = ["+"] := by simpa using h
      subst hx
      rfl
  | x :: y :: t, c, h, hch => by
      obtain ⟨hxy, hch2⟩ := List.chain'_cons.mp hch
      by_cases hx : x = ["+"]
      · subst hx
        have hy : ¬ y = ["+"] := fun hyy => hxy ⟨rfl, hyy⟩
        match t, h, hch2 with
        | [], h, _ =>
          have : y = ["+"] := by simpa using h
          exact absurd this hy
        | z :: t2, h, hch2 =>
          have hlast2 : (z :: t2).getLast? = some ["+"] := by
            simpa [List.getLast?_cons_cons] using h
          have hchain2 : (z :: t2).Chain' (fun a b => ¬ (a = ["+"] ∧ b = ["+"])) :=
            (List.chain'_cons.mp hch2).2
          simpa [mergeChain] using mergeChain_isOk_false (z :: t2) (c ++ y) hlast2 hchain2
      · have hlast2 : (y :: t).getLast? = some ["+"] := by
          simpa [List.getLast?_cons_cons] using h
        have step : mergeChain c (x :: y :: t) = (mergeChain x (y :: t)).map (c :: ·) := by
          simp [mergeChain, hx]
        rw [step, Except.isOk_map]
        exact mergeChain_isOk_false (y :: t) x hlast2 hch2

/-- Claim C6 counterexample: the token sequence a, +, + ends in a dangling
standalone "+" (its last list is ["+"], with no list after it), yet
process_wordlists succeeds, absorbing the trailing "+" as a literal token of
the merged list instead of erroring. -/
theorem C6_counterexample :
    [["a"], ["+"], ["+"]].getLast? = some ["+"] ∧
    process_wordlists [["a"], ["+"], ["+"]] = .ok [["a", "+"]] := by
  constructor
  · rfl
  · rfl

/-- Claim C6 (amended): a leading standalone "+" always fails with an
adjacency error, and a dangling standalone "+" (last list ["+"]) fails with
an adjacency error provided no standalone "+" immediately follows another
standalone "+". The proviso is forced by the counterexample a, +, +, where
the trailing "+" happens to be reached in operand position and is consumed
as data; with consecutive "+" lists the outcome depends on the position the
scan reaches them in (x, +, +, + errors again), so only the proviso'd
statement is claimed. -/
theorem C6_adjacency_errors (raw : List (List String)) :
    (raw.head? = some ["+"] → (process_wordlists raw).isOk = false) ∧
    (raw.getLast? = some ["+"] →
      raw.Chain' (fun a b => ¬ (a = ["+"] ∧ b = ["+"])) →
      (process_wordlists raw).isOk = false) := by
  constructor
  · intro h
    match raw, h with
    | l :: rest, h =>
      have hl : l = ["+"] := by simpa using h
      subst hl
      rfl
  · intro hlast hchain
    match raw, hlast, hchain with
    | l :: rest, hlast, hchain =>
      by_cases hl : l = ["+"]
      · subst hl
        rfl
      · have step : process_wordlists (l :: rest) = mergeChain l rest := by
          simp [process_wordlists, hl]
        rw [step]
        match rest, hlast with
        | [], hlast =>
          have : l = ["+"] := by simpa using hlast
          exact absurd this hl
        | r :: rest2, hlast =>
          have hlast2 : (r :: rest2).getLast? = some ["+"] := by
            simpa [List.getLast?_cons_cons] using hlast
          exact mergeChain_isOk_false (r :: rest2) l hlast2 (List.chain'_cons'.mp hchain).2

/-- Witness for C6 (amended) at the concrete sequences +, a (leading "+") and
a, + (dangling "+" with no consecutive "+"). -/
theorem C6_adjacency_errors_witness :
    (([["+"], ["a"]].head? = some ["+"] →
      (process_wordlists [["+"], ["a"]]).isOk = false) ∧
      ([["+"], ["a"]].getLast? = some ["+"] →
        [["+"], ["a"]].Chain' (fun a b => ¬ (a = ["+"] ∧ b = ["+"])) →
        (process_wordlists [["+"], ["a"]]).isOk = false)) ∧
    (([["a"], ["+"]].head? = some ["+"] →
      (process_wordlists [["a"], ["+"]]).isOk = false) ∧
      ([["a"], ["+"]].getLast? = some ["+"] →
        [["a"], ["+"]].Chain' (fun a b => ¬ (a = ["+"] ∧ b = ["+"])) →
        (process_wordlists [["a"], ["+"]]).isOk = false)) :=
  ⟨C6_adjacency_errors [["+"], ["a"]], C6_adjacency_errors [["a"], ["+"]]⟩

/-- Claim C4: in parallel mode the expansion has exactly as many tuples as the
first list has elements, tuple i takes element list[i mod len(list)] from
each list in order (given all lists non-empty), and an empty first list
yields an empty output. -/
theorem C4_parallel_mode (lists : List (List String)) :
    ((∀ l ∈ lists, l ≠ []) →
      (generate_combinations lists true).length = (lists.headD []).length ∧
      ∀ i, i < (lists.headD []).length → ∀ j, j < lists.length →
        ((generate_combinations lists true).getD i []).getD j "" =
          (lists.getD j []).getD (i % (lists.getD j []).length) "") ∧
    ((lists.headD []) = [] → generate_combinations lists true = []) := by
  constructor
  · intro _
    constructor
    · simp [generate_combinations]
    · intro i hi j hj
      have hrow : (generate_combinations lists true).getD i [] =
          lists.map (fun list => list.getD (i % list.length) "") := by
        rw [generate_combinations]
        simp only [if_pos]
        rw [List.getD_eq_getElem?_getD, List.getElem?_map]
        rw [List.getElem?_range hi]
        rfl
      have hj2 : lists[j]? = some (lists.getD j []) := by
        simp [List.getD_eq_getElem?_getD, List.getElem?_eq_getElem hj]
      rw [hrow, List.getD_eq_getElem?_getD, List.getElem?_map, hj2]
      simp
  · intro h
    rw [generate_combinations, if_pos rfl, h]
    simp

/-- Witness for C4 at lists ["a","b","c"], ["x","y"]: three tuples, element j
of tuple i is list_j[i mod len(list_j)]. -/
theorem C4_parallel_mode_witness :
    (∀ l ∈ [["a", "b", "c"], ["x", "y"]], l ≠ []) ∧
    ((generate_combinations [["a", "b", "c"], ["x", "y"]] true).length =
        ([["a", "b", "c"], ["x", "y"]].headD []).length ∧
      ∀ i, i < ([["a", "b", "c"], ["x", "y"]].headD []).length →
        ∀ j, j < [["a", "b", "c"], ["x", "y"]].length →
        ((generate_combinations [["a", "b", "c"], ["x", "y"]] true).getD i []).getD j "" =
          ([["a", "b", "c"], ["x", "y"]].getD j []).getD
            (i % ([["a", "b", "c"], ["x", "y"]].getD j []).length) "") :=
  ⟨by decide, (C4_parallel_mode [["a", "b", "c"], ["x", "y"]]).1 (by decide)⟩

/-- Rust str::contains for a literal pattern, on character lists (an empty
pattern is contained in every string). -/
def containsSub : List Char → List Char → Bool
  | [], pat => pat.isEmpty
  | c :: rest, pat => pat.isPrefixOf (c :: rest) || containsSub rest pat

/-- Rust str::replace scan for a non-empty literal pattern: left-to-right,
non-overlapping, the replacement text is not rescanned. The fuel is the
haystack length; every step consumes at least one character, so the fuel
never runs out on the fuel = length call used below. -/
def replaceAllAux (pat rep : List Char) : Nat → List Char → List Char
  | _, [] => []
  | 0, s => s
  | fuel + 1, c :: rest =>
    if pat.isPrefixOf (c :: rest) then
      rep ++ replaceAllAux pat rep fuel ((c :: rest).drop pat.length)
    else
      c :: replaceAllAux pat rep fuel rest

/-- Rust str::contains on String. -/
def rust_contains (s pat : String) : Bool := containsSub s.data pat.data

/-- Rust str::replace on String. The resolver only ever passes the non-empty
patterns FUZZW\x7bi\x7d and FUZZR, so the empty-pattern case (where Rust would
interleave the replacement at every boundary) is modelled as the identity and
never exercised. -/
def rust_replace (s pat rep : String) : String :=
  if pat.data.isEmpty then s
  else String.mk (replaceAllAux pat.data rep.data s.data.length s.data)

/-- The per-combination body of process_url_template from src/core/downzer.rs:
for each 0-based (i, value) of the enumerated tuple, replace FUZZW(i+1) when
present; afterwards replace FUZZR with the first element when the template
still contains it and the tuple is non-empty. -/
def resolveCombo (template : String) (combo : List String) : String :=
  let url := combo.enum.foldl
    (fun url p =>
      if rust_contains url ("FUZZW" ++ toString (p.1 + 1)) then
        rust_replace url ("FUZZW" ++ toString (p.1 + 1)) p.2
      else url)
    template
  if rust_contains url "FUZZR" && !combo.isEmpty then
    rust_replace url "FUZZR" (combo.headD "")
  else url

/-- The split used by the resolver (helper for excludeTokens). -/
def splitCharsAux (p : Char → Bool) : List Char → List Char → List (List Char)
  | [], acc => [acc.reverse]
  | c :: rest, acc =>
    if p c then acc.reverse :: splitCharsAux p rest []
    else splitCharsAux p rest (c :: acc)

/-- The exclude_set of process_url_template: the exclude argument (empty when
absent) split on commas and spaces, empty tokens dropped; membership is exact
string equality (the source collects into a HashSet of string slices). -/
def excludeTokens (exclude : Option String) : List String :=
  ((splitCharsAux (fun c => c = ',' || c = ' ') (exclude.getD "").data []).filter
    (fun tok => !tok.isEmpty)).map String.mk

/-- process_url_template from src/core/downzer.rs (the source wraps the vector
in Ok unconditionally; the Result layer is dropped). -/
def process_url_template (template : String) (combinations : List (List String))
    (exclude : Option String) : List String :=
  combinations.foldl
    (fun urls combo =>
      let url := resolveCombo template combo
      if (excludeTokens exclude).contains url then urls else urls ++ [url])
    []

/-- Second resolver definition, following the words of the spec for the
refinement claim C3: every occurrence of FUZZW(i) is replaced outright (no
containment pre-check), then the FUZZR rule is applied. -/
def resolveComboSpec (template : String) (combo : List String) : String :=
  let url := combo.enum.foldl
    (fun url p => rust_replace url ("FUZZW" ++ toString (p.1 + 1)) p.2)
    template
  if rust_contains url "FUZZR" && !combo.isEmpty then
    rust_replace url "FUZZR" (combo.headD "")
  else url

theorem replaceAllAux_of_not_contains (pat rep : List Char) :
    ∀ (s : List Char) (fuel : Nat), containsSub s pat = false →
      replaceAllAux pat rep fuel s = s
  | [], fuel, _ => by cases fuel <;> rfl
  | _ :: _, 0, _ => rfl
  | c :: rest, fuel + 1, h => by
      rw [containsSub, Bool.or_eq_false_iff] at h
      obtain ⟨hpre, hrest⟩ := h
      simp [replaceAllAux, hpre, replaceAllAux_of_not_contains pat rep rest fuel hrest]

theorem rust_replace_of_not_contains (s pat rep : String)
    (h : rust_contains s pat = false) : rust_replace s pat rep = s := by
  have hpat : pat.data.isEmpty = false := by
    cases hd : s.data with
    | nil => rw [rust_contains, hd, containsSub] at h; exact h
    | cons c rest =>
      rw [rust_contains, hd, containsSub, Bool.or_eq_false_iff] at h
      cases hp : pat.data with
      | nil => rw [hp] at h; simp [List.isPrefixOf] at h
      | cons d ds => rfl
  rw [rust_replace, hpat]
  simp only [Bool.false_eq_true, if_false]
  rw [replaceAllAux_of_not_contains pat.data rep.data s.data s.data.length h]

/-- Claim C3: the resolver replaces, for each 1-indexed position i of the
tuple, every occurrence of FUZZW(i) (whole-template substring replace, the
containment pre-check of the source being redundant), and afterwards applies
the FUZZR rule; the two concrete examples of the spec hold. -/
theorem C3_resolver (template : String) (combo : List String) :
    resolveCombo template combo = resolveComboSpec template combo ∧
    resolveCombo "http://x/FUZZW1/FUZZW2" ["a", "b"] = "http://x/a/b" ∧
    resolveCombo "http://x/FUZZR" ["5"] = "http://x/5" := by
  refine ⟨?_, by decide, by decide⟩
  rw [resolveCombo, resolveComboSpec]
  have hfold : combo.enum.foldl
      (fun url p =>
        if rust_contains url ("FUZZW" ++ toString (p.1 + 1)) then
          rust_replace url ("FUZZW" ++ toString (p.1 + 1)) p.2
        else url)
      template =
      combo.enum.foldl
        (fun url p => rust_replace url ("FUZZW" ++ toString (p.1 + 1)) p.2)
        template := by
    apply List.foldl_ext
    intro url p _
    by_cases hc : rust_contains url ("FUZZW" ++ toString (p.1 + 1)) = true
    · rw [if_pos hc]
    · rw [if_neg hc]
      rw [rust_replace_of_not_contains url _ p.2 (Bool.not_eq_true _ ▸ hc)]
  rw [hfold]

/-- Claim C9: the resolver keeps exactly the resolved targets that are not an
exact member of the exclusion token set, in input combination order; a
case-differing near-duplicate of an excluded target is kept. -/
theorem C9_exclusion (template : String) (combinations : List (List String))
    (exclude : Option String) :
    process_url_template template combinations exclude =
      (combinations.map (resolveCombo template)).filter
        (fun url => !(excludeTokens exclude).contains url) ∧
    process_url_template "http://x/FUZZR" [["a"], ["A"]] (some "http://x/a") =
      ["http://x/A"] := by
  constructor
  · have general : ∀ (cs : List (List String)) (acc : List String),
        cs.foldl
          (fun urls combo =>
            let url := resolveCombo template combo
            if (excludeTokens exclude).contains url then urls else urls ++ [url])
          acc =
        acc ++ (cs.map (resolveCombo template)).filter
          (fun url => !(excludeTokens exclude).contains url) := by
      intro cs
      induction cs with
      | nil => intro acc; simp
      | cons c rest ih =>
        intro acc
        simp only [List.foldl_cons, List.map_cons, List.filter_cons]
        rw [ih]
        by_cases hc : resolveCombo template c ∈ excludeTokens exclude
        · simp [hc]
        · simp [hc]
    exact general combinations []
  · decide

/-- Stats from src/core/downzer.rs. -/
structure Stats where
  downloaded : Nat
  total_bytes : Nat
  ignored : Nat
  errors : Nat
  not_found : Nat
deriving DecidableEq

/-- Stats::new from src/core/downzer.rs. -/
def Stats.new : Stats := ⟨0, 0, 0, 0, 0⟩

/-- The HTTP response a unit observes: transport-level success carrying the
status code, the raw Content-Type header value, the optional Content-Length
header, and the payload length. -/
structure HttpResponse where
  status : Nat
  contentType : String
  contentLength : Option Nat
  bodyLen : Nat
deriving DecidableEq

/-- The failure classes download_file produces through anyhow messages:
NOT_FOUND, HTTP status, IGNORED, and transport errors raised by the client
(send failure or timeout). The engine classifies by the NOT_FOUND / IGNORED
markers in the message; the variants carry exactly that distinction (an HTTP
message never contains either marker: the 404 case returns earlier). -/
inductive DownloadError where
  | notFound
  | httpError (status : Nat)
  | ignored
  | transport
deriving DecidableEq

/-- reqwest StatusCode::is_success: 200..=299. -/
def statusIsSuccess (s : Nat) : Bool := 200 ≤ s && s < 300

/-- Rust str::to_lowercase, restricted to the per-character mapping (the
embedded claims never exercise multi-character Unicode lowercasing). -/
def lowerAscii (s : String) : String := String.mk (s.data.map Char.toLower)

/-- download_file from src/core/downzer.rs. The network send is modelled by
the optional response passed in (none = transport failure or timeout); disk
writes always succeed in the model (no claim concerns them). Returns, on
success, the value added to total_bytes by the caller: the Content-Length
header value, 0 when absent (response.content_length().unwrap_or(0)). -/
def download_file (resp : Option HttpResponse) (content_types : List String) :
    Except DownloadError Nat :=
  match resp with
  | none => .error .transport
  | some r =>
    if r.status = 404 then .error .notFound
    else if !(statusIsSuccess r.status) then .error (.httpError r.status)
    else
      if !content_types.isEmpty &&
          !(content_types.any (fun ct => rust_contains (lowerAscii r.contentType) ct)) then
        .error .ignored
      else .ok (r.contentLength.getD 0)

/-- The spawned per-unit closure of execute_download_task: the task status the
unit reads immediately before its network operation is passed as data (the
value the shared map held at that instant). Returns none when the unit is
abandoned (observed Stopped), otherwise the (bytes, downloaded, ignored,
errors, not_found) tuple it hands to the join loop, classified from the
error-message markers. The source tuple for NOT_FOUND is (0, 0, 1, 0, 1). -/
def unitOutcome (statusAtCheck : TaskStatus) (resp : Option HttpResponse)
    (content_types : List String) : Option (Nat × Nat × Nat × Nat × Nat) :=
  if statusAtCheck = .Stopped then none
  else
    match download_file resp content_types with
    | .ok size => some (size, 1, 0, 0, 0)
    | .error .notFound => some (0, 0, 1, 0, 1)
    | .error .ignored => some (0, 0, 1, 0, 0)
    | .error _ => some (0, 0, 0, 1, 0)

/-- The join-and-aggregate loop at the end of execute_download_task: each
returned tuple is added field-wise onto Stats::new; abandoned units (none)
contribute nothing. -/
def aggregateStats (results : List (Option (Nat × Nat × Nat × Nat × Nat))) : Stats :=
  results.foldl
    (fun stats r =>
      match r with
      | some (bytes, downloaded, ignored, errors, not_found) =>
        { stats with
          total_bytes := stats.total_bytes + bytes
          downloaded := stats.downloaded + downloaded
          ignored := stats.ignored + ignored
          errors := stats.errors + errors
          not_found := stats.not_found + not_found }
      | none => stats)
    Stats.new

/-- Number of units that performed `t.completed += 1`: both the Ok and the Err
arms of the unit body increment completed exactly once; an abandoned unit
returns before reaching either arm. -/
def completedIncrements (results : List (Option (Nat × Nat × Nat × Nat × Nat))) : Nat :=
  results.countP Option.isSome

/-- The Stats returned by execute_download_task from src/core/downzer.rs, over
the per-unit environment (each unit's observed check status and response).
Scheduling (semaphore admission order, completion order) only permutes which
unit runs when; the join loop walks the spawn-ordered handles, which is the
list order used here. -/
def execute_download_task (units : List (TaskStatus × Option HttpResponse))
    (content_types : List String) : Stats :=
  aggregateStats (units.map (fun u => unitOutcome u.1 u.2 content_types))

/-- A 404 response as a unit's environment. -/
def resp404 : Option HttpResponse := some ⟨404, "", none, 0⟩

/-- Claim C1 fails on the code: a single non-abandoned unit whose transfer
returns HTTP 404 increments both ignored and not_found (the source returns
the tuple (0, 0, 1, 0, 1), whose positions the join loop reads as bytes,
downloaded, ignored, errors, not_found), so the four outcome counters sum to
2 for a run of 1 unit with no unit abandoned, not to 1 as the mutual
exclusivity stated by the spec requires. -/
theorem C1_notfound_double_count :
    execute_download_task [(TaskStatus.Running, resp404)] [] =
      { downloaded := 0, total_bytes := 0, ignored := 1, errors := 0, not_found := 1 } ∧
    (execute_download_task [(TaskStatus.Running, resp404)] []).downloaded +
      (execute_download_task [(TaskStatus.Running, resp404)] []).ignored +
      (execute_download_task [(TaskStatus.Running, resp404)] []).errors +
      (execute_download_task [(TaskStatus.Running, resp404)] []).not_found = 2 := by
  constructor
  · rfl
  · rfl

theorem unitOutcome_isSome (check : TaskStatus) (resp : Option HttpResponse)
    (cts : List String) :
    (unitOutcome check resp cts).isSome = decide (¬ check = TaskStatus.Stopped) := by
  by_cases h : check = TaskStatus.Stopped
  · simp [unitOutcome, h]
  · rw [unitOutcome, if_neg h]
    cases download_file resp cts with
    | ok v => simp [h]
    | error e => cases e <;> simp [h]

/-- Claim C7: a unit observing Stopped at its cancellation check is abandoned
(no Stats contribution, no completed increment); a unit observing any other
status, Paused included, proceeds and increments completed exactly once
regardless of its outcome class. -/
theorem C7_cancellation_check (check : TaskStatus) (resp : Option HttpResponse)
    (cts : List String) (units : List (TaskStatus × Option HttpResponse)) :
    (check = TaskStatus.Stopped → unitOutcome check resp cts = none) ∧
    (check ≠ TaskStatus.Stopped → (unitOutcome check resp cts).isSome = true) ∧
    execute_download_task (units ++ [(TaskStatus.Stopped, resp)]) cts =
      execute_download_task units cts ∧
    completedIncrements (units.map (fun u => unitOutcome u.1 u.2 cts)) =
      units.countP (fun u => decide (¬ u.1 = TaskStatus.Stopped)) := by
  refine ⟨?_, ?_, ?_, ?_⟩
  · intro h
    simp [unitOutcome, h]
  · intro h
    rw [unitOutcome_isSome]
    simp [h]
  · rw [execute_download_task, execute_download_task, List.map_append]
    rw [aggregateStats, aggregateStats, List.foldl_append]
    simp [unitOutcome]
  · induction units with
    | nil => rfl
    | cons u rest ih =>
      rw [List.map_cons, completedIncrements, List.countP_cons, List.countP_cons]
      rw [completedIncrements] at ih
      rw [ih, unitOutcome_isSome]

/-- A concrete unit environment observing Paused with a failed transport. -/
def pausedUnit : TaskStatus × Option HttpResponse := (TaskStatus.Paused, none)

/-- Witness for C7: a Stopped unit is abandoned, a Paused unit proceeds, a
trailing Stopped unit leaves Stats unchanged, and completed increments count
the non-Stopped units. -/
theorem C7_cancellation_check_witness :
    unitOutcome TaskStatus.Stopped none [] = none ∧
    (unitOutcome TaskStatus.Paused none []).isSome = true ∧
    execute_download_task ([pausedUnit] ++ [(TaskStatus.Stopped, none)]) [] =
      execute_download_task [pausedUnit] [] ∧
    completedIncrements ([pausedUnit].map (fun u => unitOutcome u.1 u.2 [])) =
      [pausedUnit].countP (fun u => decide (¬ u.1 = TaskStatus.Stopped)) :=
  ⟨(C7_cancellation_check TaskStatus.Stopped none [] [pausedUnit]).1 rfl,
    (C7_cancellation_check TaskStatus.Paused none [] [pausedUnit]).2.1 (by decide),
    (C7_cancellation_check TaskStatus.Paused none [] [pausedUnit]).2.2.1,
    (C7_cancellation_check TaskStatus.Paused none [] [pausedUnit]).2.2.2⟩

/-- The observable state of one batch run for a fixed task id, shared between
the execution engine of src/core/downzer.rs and the IPC handler of
src/ipc.rs: the task map, the number of units that have not yet reached
their cancellation check, the number of units past the check but not yet
finished, and the number of abandoned units. -/
structure EngineState where
  tasks : TaskMap
  pending : Nat
  inflight : Nat
  skipped : Nat
deriving DecidableEq

/-- One interleaving event of a batch run: a pending unit reaches its
cancellation check, an in-flight unit finishes (incrementing completed), an
IPC command is handled on the shared map, or the join loop returns and
execute_download_task sets the task Completed (only possible once every unit
is checked and finished). -/
inductive Event where
  | check
  | finish
  | ipc (cmd : IpcCommand)
  | finalize
deriving DecidableEq

/-- One event applied to the engine state, returning the IPC response when the
event is a command. Events whose precondition does not hold (check with no
pending unit, finish with no in-flight unit, finalize before exhaustion)
change nothing. The check event embeds the unit body's status read: a unit
observing Stopped is abandoned (skipped), any other observation (including an
absent task) puts the unit in flight. -/
def stepEngine (id : Nat) (s : EngineState) : Event → EngineState × Option IpcResponse
  | .check =>
    if s.pending = 0 then (s, none)
    else if (findTask s.tasks id).map TaskInfo.status = some TaskStatus.Stopped then
      ({ s with pending := s.pending - 1, skipped := s.skipped + 1 }, none)
    else
      ({ s with pending := s.pending - 1, inflight := s.inflight + 1 }, none)
  | .finish =>
    if s.inflight = 0 then (s, none)
    else ({ s with inflight := s.inflight - 1, tasks := incrCompleted s.tasks id }, none)
  | .ipc cmd =>
    ({ s with tasks := (handle_command cmd s.tasks).1 }, some (handle_command cmd s.tasks).2)
  | .finalize =>
    if s.pending = 0 ∧ s.inflight = 0 then
      ({ s with tasks := setTaskStatus s.tasks id TaskStatus.Completed }, none)
    else (s, none)

/-- A whole interleaving: the final state and the IPC responses in order. -/
def runTrace (id : Nat) (s : EngineState) : List Event → EngineState × List IpcResponse
  | [] => (s, [])
  | e :: rest =>
    ((runTrace id (stepEngine id s e).1 rest).1,
      (stepEngine id s e).2.toList ++ (runTrace id (stepEngine id s e).1 rest).2)

/-- The task status the given engine state holds for a task id. -/
def statusOf (s : EngineState) (id : Nat) : Option TaskStatus :=
  (findTask s.tasks id).map TaskInfo.status

/-- Events that cannot overwrite a Stopped status: everything except the
final Completed transition and the Pause/Resume commands. -/
def stopSafe : Event → Bool
  | .finalize => false
  | .ipc (.Pause _) => false
  | .ipc (.Resume _) => false
  | _ => true

/-- The conserved unit count of a batch: pending + in-flight + skipped +
completed-so-far. -/
def unitCount (s : EngineState) (id : Nat) : Nat :=
  s.pending + s.inflight + s.skipped + ((findTask s.tasks id).map TaskInfo.completed).getD 0

theorem incrCompleted_cons (k : Nat) (t : TaskInfo) (rest : TaskMap) (i : Nat) :
    incrCompleted ((k, t) :: rest) i =
      (if k = i then (k, { t with completed := t.completed + 1 }) else (k, t)) ::
        incrCompleted rest i := rfl

theorem findTask_incrCompleted (m : TaskMap) (i id : Nat) :
    findTask (incrCompleted m i) id =
      if id = i then (findTask m id).map (fun t => { t with completed := t.completed + 1 })
      else findTask m id := by
  induction m with
  | nil => simp [findTask, incrCompleted]
  | cons e rest ih =>
    obtain ⟨k, t⟩ := e
    rw [incrCompleted_cons]
    by_cases hki : k = i
    · rw [if_pos hki]
      by_cases hkd : k = id
      · subst hkd; subst hki
        simp [findTask]
      · simp [findTask, hkd, ih]
    · rw [if_neg hki]
      by_cases hkd : k = id
      · subst hkd
        simp [findTask, hki]
      · simp [findTask, hkd, ih]

theorem findTask_mem (m : TaskMap) (id : Nat) (t : TaskInfo)
    (h : findTask m id = some t) : (id, t) ∈ m := by
  induction m with
  | nil => simp [findTask] at h
  | cons e rest ih =>
    obtain ⟨k, u⟩ := e
    rw [findTask] at h
    by_cases hk : k = id
    · rw [if_pos hk] at h
      subst hk
      obtain rfl : u = t := by simpa using h
      exact List.mem_cons_self _ _
    · rw [if_neg hk] at h
      exact List.mem_cons_of_mem _ (ih h)

theorem statusOf_step_stopped (id : Nat) (s : EngineState) (e : Event)
    (h : statusOf s id = some TaskStatus.Stopped) (hsafe : stopSafe e = true) :
    statusOf (stepEngine id s e).1 id = some TaskStatus.Stopped := by
  obtain ⟨t, ht, hts⟩ : ∃ t, findTask s.tasks id = some t ∧ t.status = TaskStatus.Stopped := by
    rw [statusOf] at h
    cases hf : findTask s.tasks id with
    | none => rw [hf] at h; simp at h
    | some t => rw [hf] at h; exact ⟨t, rfl, by simpa using h⟩
  cases e with
  | check =>
    by_cases hp : s.pending = 0
    · simp [stepEngine, hp, h]
    · rw [statusOf] at h
      simp [stepEngine, hp, h, statusOf]
  | finish =>
    by_cases hq : s.inflight = 0
    · simp [stepEngine, hq, h]
    · simp [stepEngine, hq, statusOf, findTask_incrCompleted, ht, hts]
  | finalize => simp [stopSafe] at hsafe
  | ipc cmd =>
    cases cmd with
    | Stop ids =>
      simp only [stepEngine, handle_command, statusOf, findTask_setStatusAll]
      by_cases hm : id ∈ ids
      · simp [hm, ht]
      · simp [hm, ht, hts]
    | Pause ids => simp [stopSafe] at hsafe
    | Resume ids => simp [stopSafe] at hsafe
    | List => simp [stepEngine, handle_command, statusOf, ht, hts]
    | Status j =>
      rw [stepEngine]
      rw [handle_command]
      cases hfj : findTask s.tasks j <;> simp [statusOf, ht, hts]

theorem statusOf_runTrace_stopped (id : Nat) (tr : List Event) :
    ∀ (s : EngineState), statusOf s id = some TaskStatus.Stopped →
      (∀ e ∈ tr, stopSafe e = true) →
      statusOf (runTrace id s tr).1 id = some TaskStatus.Stopped := by
  induction tr with
  | nil => intro s h _; simpa [runTrace] using h
  | cons e rest ih =>
    intro s h hsafe
    simp only [runTrace]
    exact ih (stepEngine id s e).1
      (statusOf_step_stopped id s e h (hsafe e (List.mem_cons_self e rest)))
      (fun e2 he2 => hsafe e2 (List.mem_cons_of_mem e he2))

theorem findTask_isSome_step (id : Nat) (s : EngineState) (e : Event)
    (h : (findTask s.tasks id).isSome = true) :
    (findTask (stepEngine id s e).1.tasks id).isSome = true := by
  obtain ⟨t, ht⟩ := Option.isSome_iff_exists.mp h
  cases e with
  | check =>
    by_cases hp : s.pending = 0
    · simp [stepEngine, hp, ht]
    · simp only [stepEngine, if_neg hp]
      split <;> simp [ht]
  | finish =>
    by_cases hq : s.inflight = 0 <;>
      simp [stepEngine, hq, findTask_incrCompleted, ht]
  | finalize =>
    by_cases hpq : s.pending = 0 ∧ s.inflight = 0 <;>
      simp [stepEngine, hpq, findTask_setTaskStatus, ht]
  | ipc cmd =>
    cases cmd with
    | Stop ids =>
      simp only [stepEngine, handle_command, findTask_setStatusAll]
      split <;> simp [ht]
    | Pause ids =>
      simp only [stepEngine, handle_command, findTask_setStatusAll]
      split <;> simp [ht]
    | Resume ids =>
      simp only [stepEngine, handle_command, findTask_setStatusAll]
      split <;> simp [ht]
    | List => simp [stepEngine, handle_command, ht]
    | Status j =>
      cases hfj : findTask s.tasks j <;> simp [stepEngine, handle_command, hfj, ht]

theorem unitCount_step (id : Nat) (s : EngineState) (e : Event)
    (h : (findTask s.tasks id).isSome = true) :
    unitCount (stepEngine id s e).1 id = unitCount s id := by
  obtain ⟨t, ht⟩ := Option.isSome_iff_exists.mp h
  cases e with
  | check =>
    by_cases hp : s.pending = 0
    · simp [stepEngine, hp]
    · by_cases hs : (findTask s.tasks id).map TaskInfo.status = some TaskStatus.Stopped <;>
        · simp [stepEngine, hp, hs, unitCount]
          omega
  | finish =>
    by_cases hq : s.inflight = 0
    · simp [stepEngine, hq]
    · simp [stepEngine, hq, unitCount, findTask_incrCompleted, ht]
      omega
  | finalize =>
    by_cases hpq : s.pending = 0 ∧ s.inflight = 0
    · simp [stepEngine, hpq, unitCount, findTask_setTaskStatus, ht]
    · simp [stepEngine, hpq]
  | ipc cmd =>
    cases cmd with
    | Stop ids =>
      simp only [stepEngine, unitCount, handle_command, findTask_setStatusAll]
      split <;> simp [ht]
    | Pause ids =>
      simp only [stepEngine, unitCount, handle_command, findTask_setStatusAll]
      split <;> simp [ht]
    | Resume ids =>
      simp only [stepEngine, unitCount, handle_command, findTask_setStatusAll]
      split <;> simp [ht]
    | List => simp [stepEngine, handle_command]
    | Status j =>
      cases hfj : findTask s.tasks j <;> simp [stepEngine, handle_command, hfj]

theorem unitCount_runTrace (id : Nat) (tr : List Event) :
    ∀ (s : EngineState), (findTask s.tasks id).isSome = true →
      unitCount (runTrace id s tr).1 id = unitCount s id ∧
      (findTask (runTrace id s tr).1.tasks id).isSome = true := by
  induction tr with
  | nil => intro s h; exact ⟨rfl, h⟩
  | cons e rest ih =>
    intro s h
    simp only [runTrace]
    obtain ⟨h1, h2⟩ := ih (stepEngine id s e).1 (findTask_isSome_step id s e h)
    exact ⟨h1.trans (unitCount_step id s e h), h2⟩

/-- A two-unit batch whose task starts Running with nothing completed. -/
def runningBatch : EngineState := ⟨[(1, ⟨1, "tmpl", 2, 0, TaskStatus.Running⟩)], 2, 0, 0⟩

/-- Claim C2 counterexample: in a two-unit batch, one unit completes, Stop is
applied, the remaining unit is skipped at its check, and the engine then
exhausts the batch and unconditionally sets the task Completed; the Status
query issued after the Stop answers Completed, not Stopped (completed = 1
does fall short of total = 2). -/
theorem C2_counterexample :
    (runTrace 1 runningBatch
        [.check, .finish, .ipc (.Stop [1]), .check, .finalize, .ipc (.Status 1)]).2 =
      [IpcResponse.Ok, IpcResponse.TaskList [(1, "Completed", "tmpl")]] ∧
    statusOf (runTrace 1 runningBatch
        [.check, .finish, .ipc (.Stop [1]), .check, .finalize, .ipc (.Status 1)]).1 1 =
      some TaskStatus.Completed ∧
    findTask (runTrace 1 runningBatch
        [.check, .finish, .ipc (.Stop [1]), .check, .finalize, .ipc (.Status 1)]).1.tasks 1 =
      some ⟨1, "tmpl", 2, 1, TaskStatus.Completed⟩ := by
  refine ⟨rfl, rfl, rfl⟩

/-- Claim C2 (amended): once a task is Stopped, every List or Status query
issued before the batch's terminal Completed transition and with no
intervening Pause/Resume reports Stopped; a pending unit checking while the
task is Stopped is skipped (no in-flight transition, no completed
increment); the quantity pending + inflight + skipped + completed is
conserved by every event, so a drained run that skipped at least one unit
ends with completed strictly short of total. -/
theorem C2_stop_mid_batch (id : Nat) (s : EngineState) (tr : List Event) :
    (statusOf s id = some TaskStatus.Stopped → (∀ e ∈ tr, stopSafe e = true) →
      statusOf (runTrace id s tr).1 id = some TaskStatus.Stopped ∧
      ∀ t, findTask (runTrace id s tr).1.tasks id = some t →
        (stepEngine id (runTrace id s tr).1 (.ipc (.Status id))).2 =
          some (.TaskList [(id, "Stopped", t.url_template)]) ∧
        (stepEngine id (runTrace id s tr).1 (.ipc .List)).2 =
          some (.TaskList ((runTrace id s tr).1.tasks.map
            (fun e => (e.1, e.2.status.to_string, e.2.url_template)))) ∧
        (id, "Stopped", t.url_template) ∈
          (runTrace id s tr).1.tasks.map
            (fun e => (e.1, e.2.status.to_string, e.2.url_template))) ∧
    (statusOf s id = some TaskStatus.Stopped → 0 < s.pending →
      stepEngine id s .check =
        ({ s with pending := s.pending - 1, skipped := s.skipped + 1 }, none)) ∧
    (∀ t0, findTask s.tasks id = some t0 →
      unitCount (runTrace id s tr).1 id = unitCount s id) ∧
    (∀ t0, findTask s.tasks id = some t0 → t0.completed = 0 → s.pending = t0.total →
      s.inflight = 0 → s.skipped = 0 → (runTrace id s tr).1.pending = 0 →
      (runTrace id s tr).1.inflight = 0 → 0 < (runTrace id s tr).1.skipped →
      ∀ t1, findTask (runTrace id s tr).1.tasks id = some t1 →
        t1.completed < t0.total) := by
  refine ⟨?_, ?_, ?_, ?_⟩
  · intro h hsafe
    have hfin := statusOf_runTrace_stopped id tr s h hsafe
    refine ⟨hfin, ?_⟩
    intro t ht
    have hts : t.status = TaskStatus.Stopped := by
      rw [statusOf, ht] at hfin
      simpa using hfin
    refine ⟨?_, ?_, ?_⟩
    · simp [stepEngine, handle_command, ht, hts, TaskStatus.to_string]
    · simp [stepEngine, handle_command]
    · have hmem := List.mem_map_of_mem
        (fun e => (e.1, e.2.status.to_string, e.2.url_template))
        (findTask_mem _ id t ht)
      simpa [hts, TaskStatus.to_string] using hmem
  · intro h hp
    rw [statusOf] at h
    simp only [stepEngine]
    rw [if_neg (by omega), if_pos h]
  · intro t0 ht0
    exact (unitCount_runTrace id tr s (by simp [ht0])).1
  · intro t0 ht0 hc0 hpt hin hsk hfp hfi hpos t1 ht1
    have hinv := (unitCount_runTrace id tr s (by simp [ht0])).1
    rw [unitCount, unitCount, ht0, ht1, hfp, hfi] at hinv
    simp only [Option.map, Option.getD] at hinv
    omega

/-- A one-unit batch whose task is already Stopped with nothing completed. -/
def stoppedBatch : EngineState := ⟨[(1, ⟨1, "tmpl", 1, 0, TaskStatus.Stopped⟩)], 1, 0, 0⟩

/-- Witness for C2 (amended): a Stopped one-unit batch runs its only check,
the unit is skipped, queries still report Stopped, the unit count is
conserved, and the drained run ends with completed 0 short of total 1. -/
theorem C2_stop_mid_batch_witness :
    (statusOf (runTrace 1 stoppedBatch [.check]).1 1 = some TaskStatus.Stopped ∧
      ∀ t, findTask (runTrace 1 stoppedBatch [.check]).1.tasks 1 = some t →
        (stepEngine 1 (runTrace 1 stoppedBatch [.check]).1 (.ipc (.Status 1))).2 =
          some (.TaskList [(1, "Stopped", t.url_template)]) ∧
        (stepEngine 1 (runTrace 1 stoppedBatch [.check]).1 (.ipc .List)).2 =
          some (.TaskList ((runTrace 1 stoppedBatch [.check]).1.tasks.map
            (fun e => (e.1, e.2.status.to_string, e.2.url_template)))) ∧
        (1, "Stopped", t.url_template) ∈
          (runTrace 1 stoppedBatch [.check]).1.tasks.map
            (fun e => (e.1, e.2.status.to_string, e.2.url_template))) ∧
    stepEngine 1 stoppedBatch .check =
      ({ stoppedBatch with pending := stoppedBatch.pending - 1, skipped := stoppedBatch.skipped + 1 }, none) ∧
    unitCount (runTrace 1 stoppedBatch [.check]).1 1 = unitCount stoppedBatch 1 ∧
    (∀ t1, findTask (runTrace 1 stoppedBatch [.check]).1.tasks 1 = some t1 →
      t1.completed < 1) :=
  ⟨(C2_stop_mid_batch 1 stoppedBatch [.check]).1 (by decide) (by decide),
    (C2_stop_mid_batch 1 stoppedBatch [.check]).2.1 (by decide) (by decide),
    (C2_stop_mid_batch 1 stoppedBatch [.check]).2.2.1
      ⟨1, "tmpl", 1, 0, TaskStatus.Stopped⟩ (by decide),
    fun t1 ht1 =>
      (C2_stop_mid_batch 1 stoppedBatch [.check]).2.2.2
        ⟨1, "tmpl", 1, 0, TaskStatus.Stopped⟩ (by decide) rfl rfl rfl rfl
        (by decide) (by decide) (by decide) t1 ht1⟩

/-- The accumulator-free form of the cartesian product recursion (head choice
prepended to every product of the remaining lists). -/
def cartSimple : List (List String) → List (List String)
  | [] => [[]]
  | l :: rest => l.flatMap (fun item => (cartSimple rest).map (fun t => item :: t))

/-- The product of the list lengths. -/
def prodLens (lists : List (List String)) : Nat := (lists.map List.length).prod

theorem cartesian_product_eq_map (lists : List (List String)) :
    ∀ (current : List String),
      cartesian_product lists current = (cartSimple lists).map (fun t => current ++ t) := by
  induction lists with
  | nil => intro current; simp [cartesian_product, cartSimple]
  | cons l rest ih =>
    intro current
    simp only [cartesian_product, cartSimple, List.map_flatMap, List.map_map]
    simp [ih, Function.comp, List.map_map]
    rfl

theorem sum_map_const (l : List String) (n : Nat) : (l.map (fun _ => n)).sum = l.length * n := by
  induction l with
  | nil => simp
  | cons a t ih => simp [ih, Nat.succ_mul, Nat.add_comm]

theorem cartSimple_length : ∀ (lists : List (List String)),
    (cartSimple lists).length = prodLens lists
  | [] => by simp [cartSimple, prodLens]
  | l :: rest => by
    rw [cartSimple]
    induction l with
    | nil => simp [prodLens]
    | cons a l2 ihl =>
      rw [List.flatMap_cons, List.length_append, List.length_map, ihl]
      rw [cartSimple_length rest]
      simp only [prodLens, List.map_cons, List.prod_cons, List.length_cons]
      ring

theorem prodLens_pos (lists : List (List String)) (h : ∀ l ∈ lists, l ≠ []) :
    0 < prodLens lists := by
  induction lists with
  | nil => simp [prodLens]
  | cons l rest ih =>
    have hl : 0 < l.length := List.length_pos.mpr (h l (by simp))
    have h2 : 0 < prodLens rest := ih (fun x hx => h x (by simp [hx]))
    have : prodLens (l :: rest) = l.length * prodLens rest := by
      simp [prodLens]
    rw [this]
    exact Nat.mul_pos hl h2

theorem cartSimple_getD_cons (l : List String) (rest : List (List String)) :
    ∀ (i : Nat), i < l.length * prodLens rest →
      (cartSimple (l :: rest)).getD i [] =
        (l.getD (i / prodLens rest) "") ::
          ((cartSimple rest).getD (i % prodLens rest) []) := by
  induction l with
  | nil => intro i hi; simp at hi
  | cons a l2 ih =>
    intro i hi
    have hP : 0 < prodLens rest := by
      rcases Nat.eq_zero_or_pos (prodLens rest) with h0 | h0
      · rw [h0, Nat.mul_zero] at hi; exact absurd hi (by omega)
      · exact h0
    have hsplit : cartSimple ((a :: l2) :: rest) =
        ((cartSimple rest).map (fun t => a :: t)) ++ cartSimple (l2 :: rest) := by
      simp [cartSimple, List.flatMap_cons]
    rw [hsplit]
    by_cases hiP : i < prodLens rest
    · have hlen : i < ((cartSimple rest).map (fun t => a :: t)).length := by
        simpa [cartSimple_length] using hiP
      rw [List.getD_append _ _ _ _ hlen]
      have hmap : ((cartSimple rest).map (fun t => a :: t)).getD i [] =
          a :: (cartSimple rest).getD i [] := by
        rw [List.getD_eq_getElem?_getD, List.getElem?_map, List.getD_eq_getElem?_getD]
        cases hx : (cartSimple rest)[i]? with
        | none =>
          exfalso
          rw [List.getElem?_eq_none_iff] at hx
          rw [cartSimple_length] at hx
          omega
        | some v => simp
      rw [hmap, Nat.div_eq_of_lt hiP, Nat.mod_eq_of_lt hiP]
      simp
    · push_neg at hiP
      have hlen2 : ((cartSimple rest).map (fun t => a :: t)).length ≤ i := by
        simpa [cartSimple_length] using hiP
      rw [List.getD_append_right _ _ _ _ hlen2]
      have hlen3 : ((cartSimple rest).map (fun t => a :: t)).length = prodLens rest := by
        simp [cartSimple_length]
      rw [hlen3]
      have hi2 : i - prodLens rest < l2.length * prodLens rest := by
        rw [List.length_cons, Nat.succ_mul] at hi
        generalize l2.length * prodLens rest = A at hi ⊢
        omega
      rw [ih (i - prodLens rest) hi2]
      have hdiv : i / prodLens rest = (i - prodLens rest) / prodLens rest + 1 := by
        conv_lhs => rw [← Nat.sub_add_cancel hiP]
        rw [Nat.add_div_right _ hP]
      have hmod : i % prodLens rest = (i - prodLens rest) % prodLens rest := by
        conv_lhs => rw [← Nat.sub_add_cancel hiP]
        rw [Nat.add_mod_right]
      rw [hdiv, hmod]
      simp

theorem prodLens_decompose (rest : List (List String)) :
    ∀ (j : Nat), j < rest.length →
      prodLens rest =
        prodLens (rest.take j) *
          ((rest.getD j []).length * prodLens (rest.drop (j + 1))) := by
  induction rest with
  | nil => intro j hj; simp at hj
  | cons r rest2 ih =>
    intro j hj
    cases j with
    | zero => simp [prodLens]
    | succ j2 =>
      have h2 := ih j2 (by simpa using hj)
      have hcons : prodLens (r :: rest2) = r.length * prodLens rest2 := by simp [prodLens]
      have htake : prodLens ((r :: rest2).take (j2 + 1)) = r.length * prodLens (rest2.take j2) := by
        simp [prodLens]
      rw [hcons, h2, htake]
      simp [List.getD_cons_succ, List.drop_succ_cons, Nat.mul_assoc]

theorem mod_div_mod_eq (i A L Q : Nat) (hQ : 0 < Q) :
    ((i % (A * (L * Q))) / Q) % L = (i / Q) % L := by
  rcases Nat.eq_zero_or_pos (A * (L * Q)) with hP0 | hP0
  · rw [hP0, Nat.mod_zero]
  · have key : i / Q = (i % (A * (L * Q))) / Q + (A * (i / (A * (L * Q)))) * L := by
      conv_lhs => rw [← Nat.div_add_mod i (A * (L * Q))]
      have hx : A * (L * Q) * (i / (A * (L * Q))) =
          (A * L * (i / (A * (L * Q)))) * Q := by ring
      rw [hx, Nat.add_comm, Nat.add_mul_div_right _ _ hQ]
      ring
    rw [key, Nat.add_mul_mod_self_right]

theorem cartSimple_getD (lists : List (List String)) :
    (∀ l ∈ lists, l ≠ []) →
    ∀ i, i < prodLens lists → ∀ j, j < lists.length →
      ((cartSimple lists).getD i []).getD j "" =
        (lists.getD j []).getD
          ((i / prodLens (lists.drop (j + 1))) % (lists.getD j []).length) "" := by
  induction lists with
  | nil => intro _ i _ j hj; simp at hj
  | cons l rest ih =>
    intro hne i hi j hj
    have hrest_ne : ∀ l2 ∈ rest, l2 ≠ [] := fun l2 hl2 => hne l2 (by simp [hl2])
    have hP2 : 0 < prodLens rest := prodLens_pos rest hrest_ne
    have hi2 : i < l.length * prodLens rest := by
      have : prodLens (l :: rest) = l.length * prodLens rest := by simp [prodLens]
      rwa [this] at hi
    rw [cartSimple_getD_cons l rest i hi2]
    cases j with
    | zero =>
      have hdivlt : i / prodLens rest < l.length := (Nat.div_lt_iff_lt_mul hP2).mpr hi2
      simp [Nat.mod_eq_of_lt hdivlt]
    | succ j2 =>
      have hj2 : j2 < rest.length := by simpa using hj
      have himod : i % prodLens rest < prodLens rest := Nat.mod_lt _ hP2
      have hstep := ih hrest_ne (i % prodLens rest) himod j2 hj2
      have hQ : 0 < prodLens (rest.drop (j2 + 1)) :=
        prodLens_pos _ (fun x hx => hrest_ne x (List.drop_subset _ _ hx))
      have harith :
          ((i % prodLens rest) / prodLens (rest.drop (j2 + 1))) %
              (rest.getD j2 []).length =
            (i / prodLens (rest.drop (j2 + 1))) % (rest.getD j2 []).length := by
        conv_lhs => rw [prodLens_decompose rest j2 hj2]
        exact mod_div_mod_eq i (prodLens (rest.take j2)) (rest.getD j2 []).length
          (prodLens (rest.drop (j2 + 1))) hQ
      rw [List.getD_cons_succ, hstep, harith]
      simp [List.getD_cons_succ, List.drop_succ_cons]

theorem cartSimple_mem (lists : List (List String)) :
    ∀ t, t ∈ cartSimple lists ↔ List.Forall₂ (fun x l => x ∈ l) t lists := by
  induction lists with
  | nil =>
    intro t
    simp [cartSimple, List.forall₂_nil_right_iff]
  | cons l rest ih =>
    intro t
    simp only [cartSimple, List.mem_flatMap, List.mem_map]
    constructor
    · rintro ⟨a, ha, t2, ht2, rfl⟩
      exact List.Forall₂.cons ha ((ih t2).mp ht2)
    · intro h
      cases h with
      | cons hx hrest => exact ⟨_, hx, _, (ih _).mpr hrest, rfl⟩

theorem cartSimple_nodup (lists : List (List String)) (h : ∀ l ∈ lists, l.Nodup) :
    (cartSimple lists).Nodup := by
  induction lists with
  | nil => simp [cartSimple]
  | cons l rest ih =>
    rw [cartSimple, List.nodup_flatMap]
    constructor
    · intro x _
      exact List.Nodup.map
        (fun t1 t2 h12 => (List.cons.inj h12).2)
        (ih (fun y hy => h y (by simp [hy])))
    · apply List.Pairwise.imp ?_ (h l (by simp))
      intro a b hab t hta htb
      obtain ⟨t1, _, rfl⟩ := List.mem_map.mp hta
      obtain ⟨t2, _, heq⟩ := List.mem_map.mp htb
      exact hab ((List.cons.inj heq).1.symm)

theorem count_eq_one_of_nodup_mem (l : List (List String)) (t : List String)
    (hnd : l.Nodup) (hm : t ∈ l) : List.count t l = 1 := by
  induction l with
  | nil => simp at hm
  | cons a rest ih =>
    rw [List.count_cons]
    rcases List.mem_cons.mp hm with rfl | hm2
    · have hnotin : t ∉ rest := (List.nodup_cons.mp hnd).1
      have hz : List.count t rest = 0 := by
        rw [List.count_eq_zero]
        exact hnotin
      simp [hz]
    · have h1 : List.count t rest = 1 := ih (List.nodup_cons.mp hnd).2 hm2
      have hne2 : ¬ (t = a) := fun h => (List.nodup_cons.mp hnd).1 (h ▸ hm2)
      have hne3 : ¬ (a = t) := fun h => hne2 h.symm
      rw [h1]
      simp [hne2, hne3]

/-- Claim C5 counterexample: in product mode with two non-empty lists, a
duplicated token makes a combination appear twice, refuting "every
combination appears exactly once" as stated: with lists [a, a] and [b],
the (well-formed) combination [a, b] occurs twice in the output. -/
theorem C5_counterexample :
    List.count ["a", "b"] (generate_combinations [["a", "a"], ["b"]] false) = 2 ∧
    List.Forall₂ (fun x l => x ∈ l) ["a", "b"] [["a", "a"], ["b"]] := by
  constructor
  · decide
  · exact List.Forall₂.cons (by decide) (List.Forall₂.cons (by decide) List.Forall₂.nil)

/-- Claim C5 (amended): in product mode with more than one list, all lists
non-empty, the expansion is the full cartesian product in list order with the
rightmost list varying fastest (tuple i, position j holds
list_j[(i / prod of lengths after j) mod len_j]); the output size is the
product of the list lengths; the output tuples are exactly the pointwise
picks; and every combination appears exactly once provided each list is
duplicate-free (with duplicated tokens a combination appears once per way of
picking it). With a single list, each element becomes a singleton tuple in
list order. -/
theorem C5_product_mode (lists : List (List String)) :
    (1 < lists.length → (∀ l ∈ lists, l ≠ []) →
      (generate_combinations lists false).length = prodLens lists ∧
      (∀ i, i < prodLens lists → ∀ j, j < lists.length →
        ((generate_combinations lists false).getD i []).getD j "" =
          (lists.getD j []).getD
            ((i / prodLens (lists.drop (j + 1))) % (lists.getD j []).length) "") ∧
      (∀ t, t ∈ generate_combinations lists false ↔
        List.Forall₂ (fun x l => x ∈ l) t lists) ∧
      ((∀ l ∈ lists, l.Nodup) → ∀ t, List.Forall₂ (fun x l => x ∈ l) t lists →
        List.count t (generate_combinations lists false) = 1)) ∧
    (∀ l : List String, generate_combinations [l] false = l.map (fun s => [s])) := by
  constructor
  · intro hlen hne
    have hgen : generate_combinations lists false = cartSimple lists := by
      rw [generate_combinations, if_neg (by simp), if_neg (by omega)]
      rw [cartesian_product_eq_map lists []]
      simp
    rw [hgen]
    refine ⟨cartSimple_length lists, cartSimple_getD lists hne, cartSimple_mem lists, ?_⟩
    intro hnd t ht
    exact count_eq_one_of_nodup_mem (cartSimple lists) t (cartSimple_nodup lists hnd)
      ((cartSimple_mem lists t).mpr ht)
  · intro l
    rfl

/-- Witness for C5 (amended) at the duplicate-free lists [a, b] and [x, y],
and the singleton list case at [q]. -/
theorem C5_product_mode_witness :
    ((generate_combinations [["a", "b"], ["x", "y"]] false).length =
        prodLens [["a", "b"], ["x", "y"]] ∧
      (∀ i, i < prodLens [["a", "b"], ["x", "y"]] →
        ∀ j, j < ([["a", "b"], ["x", "y"]] : List (List String)).length →
        ((generate_combinations [["a", "b"], ["x", "y"]] false).getD i []).getD j "" =
          (([["a", "b"], ["x", "y"]] : List (List String)).getD j []).getD
            ((i / prodLens ([["a", "b"], ["x", "y"]].drop (j + 1))) %
              (([["a", "b"], ["x", "y"]] : List (List String)).getD j []).length) "") ∧
      (∀ t, t ∈ generate_combinations [["a", "b"], ["x", "y"]] false ↔
        List.Forall₂ (fun x l => x ∈ l) t [["a", "b"], ["x", "y"]]) ∧
      ((∀ l ∈ [["a", "b"], ["x", "y"]], l.Nodup) →
        ∀ t, List.Forall₂ (fun x l => x ∈ l) t [["a", "b"], ["x", "y"]] →
          List.count t (generate_combinations [["a", "b"], ["x", "y"]] false) = 1)) ∧
    generate_combinations [["q"]] false = ["q"].map (fun s => [s]) :=
  ⟨(C5_product_mode [["a", "b"], ["x", "y"]]).1 (by decide) (by decide),
    (C5_product_mode [["a", "b"], ["x", "y"]]).2 ["q"]⟩

end Downzer

